import Mathlib

/-!
# Verification of the dingdanBot order-notification service

Shallow embedding of the Python sources (`database.py`, `order_api.py`,
`bot.py`) of the dingdanBot repository, together with proofs about the
claims of its specification.

Conventions of the embedding:
* SQLite tables become Lean lists of rows, kept in storage (rowid) order;
  one SQL statement becomes one pure function from the old table to the
  new table (plus any returned value).
* Python strings are Lean `String`s; the character-level operations
  (`strip`, `rstrip`, `in`, `lower`, `endswith`, `replace`, SQL `LIKE`)
  are implemented below on `List Char`.  `str.strip()` is modelled over
  the six ASCII whitespace characters; `str.lower()` and SQL `LIKE`
  case-folding are modelled as ASCII case-folding (the refund keywords
  involved are Chinese and unaffected by case).
* Network calls are oracles: a function from the attempt number (or page
  number) to the outcome the call would produce.
* `json.loads` of a log blob is outside the scope of the embedding; the
  parse outcome travels with the value (`ApiOrder.logsEntries`).
-/

/-! ## Character / string utilities (Python and SQLite semantics) -/

/-- The ASCII whitespace characters stripped by Python's `str.strip()`. -/
def isPySpace (c : Char) : Bool :=
  c == ' ' || c == '\t' || c == '\n' || c == '\r' || c == '\x0B' || c == '\x0C'

/-- ASCII lower-casing of one character (model of `str.lower()` /
SQL `LIKE` case folding; non-ASCII characters are fixed points). -/
def asciiLower (c : Char) : Char :=
  if 'A' ≤ c && c ≤ 'Z' then Char.ofNat (c.toNat + 32) else c

/-- Model of `str.lower()` on a character list. -/
def lowerStrL (l : List Char) : List Char := l.map asciiLower

/-- Drop the trailing characters satisfying `p` (used for `strip` and
`rstrip`). -/
def dropTrailingL (p : Char → Bool) (l : List Char) : List Char :=
  ((l.reverse).dropWhile p).reverse

/-- Python `str.strip()`: drop leading and trailing whitespace. -/
def pyStripL (l : List Char) : List Char :=
  dropTrailingL isPySpace (l.dropWhile isPySpace)

/-- Python `str.rstrip('/')`: drop every trailing `'/'`. -/
def rstripSlashL (l : List Char) : List Char :=
  dropTrailingL (fun c => c == '/') l

/-- Python `str.endswith('/')`. -/
def endsSlashL (l : List Char) : Bool :=
  match l.reverse with
  | [] => false
  | c :: _ => c == '/'

/-- Python's `pat in s` substring test (case-sensitive). -/
def hasSubL (pat : List Char) : List Char → Bool
  | [] => pat.isEmpty
  | c :: rest => pat.isPrefixOf (c :: rest) || hasSubL pat rest

/-- The loop of `str.replace(pat, '')`, structurally recursive on a
fuel counter so that the kernel can evaluate it; every step shortens
the list, so `fuel = l.length` (as the wrapper passes) never reaches
the `0` branch on a non-empty list. -/
def removeAllGo (pat : List Char) : Nat → List Char → List Char
  | 0, _ => []
  | fuel + 1, l =>
    match l with
    | [] => []
    | c :: rest =>
      if pat ≠ [] && pat.isPrefixOf (c :: rest) then
        removeAllGo pat fuel (rest.drop (pat.length - 1))
      else
        c :: removeAllGo pat fuel rest

/-- Python `str.replace(pat, '')` (delete every non-overlapping
occurrence of `pat`, scanning left to right). -/
def removeAllL (pat : List Char) (l : List Char) : List Char :=
  removeAllGo pat l.length l

/-- SQLite `LIKE` matching: `'%'` matches any character sequence, `'_'`
any single character, other characters match
ASCII-case-insensitively.  `'%' :: ps` matches `s` exactly when `ps`
matches some tail of `s`. -/
def likeMatch : List Char → List Char → Bool
  | [], s => s.isEmpty
  | '%' :: ps, s => (s.tails).any (fun t => likeMatch ps t)
  | '_' :: ps, _ :: s => likeMatch ps s
  | p :: ps, c :: s => (asciiLower p == asciiLower c) && likeMatch ps s
  | _ :: _, [] => false

/-! ## Data model (rows of the three tables, upstream order dicts) -/

/-- One row of the `orders` table (the columns the verified operations
read or write; `douyin_url` is nullable in the schema). -/
structure OrderRow where
  order_id : Int
  create_at : Int
  douyin_url : Option String
  logs : String
  order_status : Int
  shequ_id : Int
deriving DecidableEq, Repr

/-- One row of the `order_sync_tasks` table.  `last_synced_at` and
`status_text` are nullable columns. -/
structure SyncTask where
  order_id : Int
  chat_id : Int
  message_id : Int
  attempts : Int
  max_attempts : Int
  last_synced_at : Option Int
  douyin_url : String
  shequ_id : Int
  order_sn : String
  status_text : Option String
deriving DecidableEq, Repr

/-- An upstream order dict as returned by the backend API.  `logs` is the
raw `Logs` string; `logsEntries` carries the outcome of `json.loads` on
it (`none`: unparsable plain string, `some cs`: the `content` strings of
the parsed entry list).  `params_douyin_url` carries the link that
`extract_douyin_url` would pull out of the `Params` blob. -/
structure ApiOrder where
  id : Int
  create_at : Int
  logs : String
  logsEntries : Option (List String)
  order_status_text : Option String
  order_status : Int
  shequ_id : Int
  params_douyin_url : Option String
deriving DecidableEq, Repr

/-- The `{error: int, info: [...]}` envelope of the order-listing API. -/
structure ApiResult where
  error : Int
  info : List ApiOrder
deriving DecidableEq, Repr

/-! ## database.py: normalize_url -/

/-- Model of `Database.normalize_url` on a character list: strip whitespace,
strip every trailing slash, and re-append exactly one slash when the
canonical domain occurs in the string. -/
def normalizeUrlL (l : List Char) : List Char :=
  if l = [] then []
  else
    let u := rstripSlashL (pyStripL l)
    if hasSubL ("v.douyin.com".data) u then
      (if endsSlashL u then u else u ++ ['/'])
    else u

/-- Model of `Database.normalize_url`. -/
def normalizeUrl (s : String) : String := String.mk (normalizeUrlL s.data)

/-! ## database.py: find_order_by_douyin_url -/

/-- The `WHERE` clause of `find_order_by_douyin_url` applied to one row:
exact match on the normalized URL, exact match with trailing slashes
stripped, or `LIKE` containment of the protocol-stripped core (a `NULL`
`douyin_url` matches nothing). -/
def matchesRow (clean core : List Char) (r : OrderRow) : Bool :=
  match r.douyin_url with
  | none => false
  | some s =>
    s.data == clean || s.data == rstripSlashL clean ||
      likeMatch ('%' :: (core ++ ['%'])) s.data ||
      likeMatch ('%' :: (core ++ ['/', '%'])) s.data

/-- The protocol-stripped core of a normalized URL:
`clean_url.replace('https://', '').replace('http://', '').rstrip('/')`. -/
def urlCore (clean : List Char) : List Char :=
  rstripSlashL (removeAllL ("http://".data) (removeAllL ("https://".data) clean))

/-- The rows of the table that the query's `WHERE` clause selects, in
storage order ([] when the normalized link is empty or not an
`http(s)` URL, in which case the Python returns early). -/
def findCandidates (url : String) (table : List OrderRow) : List OrderRow :=
  let clean := normalizeUrlL url.data
  if clean = [] || !("http".data.isPrefixOf clean) then []
  else table.filter (matchesRow clean (urlCore clean))

/-- Model of `ORDER BY create_at DESC LIMIT 1` over candidate rows.
SQLite does not specify the relative order of rows with equal
`create_at` (the query has no secondary sort key); the embedding
realizes the scan deterministically by returning the first row in
storage order among those with maximal `create_at`. -/
def pickTop : List OrderRow → Option OrderRow
  | [] => none
  | r :: rest =>
    match pickTop rest with
    | none => some r
    | some b => if b.create_at > r.create_at then some b else some r

/-- Model of `Database.find_order_by_douyin_url`. -/
def findOrderByDouyinUrl (url : String) (table : List OrderRow) : Option OrderRow :=
  pickTop (findCandidates url table)

/-! ## database.py: insert_order / insert_orders_batch -/

/-- Model of `INSERT OR REPLACE INTO orders ...` (`order_id UNIQUE`): the
conflicting row (same `order_id`) is deleted and the new row appended.
`Database.insert_order` builds the row from the upstream dict (with the
link pre-extracted from `Params`); the embedding takes the built row. -/
def insertOrder (table : List OrderRow) (row : OrderRow) : List OrderRow :=
  table.filter (fun r => !(r.order_id == row.order_id)) ++ [row]

/-- Model of `Database.order_exists`. -/
def orderExists (table : List OrderRow) (oid : Int) : Bool :=
  table.any (fun r => r.order_id == oid)

/-- One iteration of the `insert_orders_batch` loop: skip the order when
a row with its `order_id` already exists, otherwise insert it and bump
the inserted count. -/
def insertOrderStep (acc : List OrderRow × Nat) (o : OrderRow) :
    List OrderRow × Nat :=
  if orderExists acc.1 o.order_id then acc
  else (insertOrder acc.1 o, acc.2 + 1)

/-- Model of `Database.insert_orders_batch`: for each order, skip it when a row
with its `order_id` already exists, otherwise insert it; returns the
new table and the number of inserted orders. -/
def insertOrdersBatch (table : List OrderRow) (orders : List OrderRow) :
    List OrderRow × Nat :=
  orders.foldl insertOrderStep (table, 0)

/-- Model of `SELECT ... FROM orders WHERE order_id = ?` (first row in storage
order). -/
def lookupOrder (table : List OrderRow) (oid : Int) : Option OrderRow :=
  table.find? (fun r => r.order_id == oid)

/-- Number of rows holding a given `order_id` (for the uniqueness
invariant). -/
def countId (table : List OrderRow) (oid : Int) : Nat :=
  (table.filter (fun r => r.order_id == oid)).length

/-! ## database.py: is_refund_status -/

/-- The five pre-tracking refund keywords of `Database.is_refund_status`. -/
def keywords5 : List String := ["退单中", "已退款", "已退单", "退款中", "退单"]

/-- The three terminal keywords of `OrderAPI` (`sync_order` pre-check and
`extract_refund_status`). -/
def keywords3 : List String := ["退单中", "已退款", "已退单"]

/-- Model of `Database.is_refund_status` on a stored row shape: some keyword of
`keywords5` occurs in `logs.lower()`, or `order_status` is truthy and
negative (which for an integer is just `order_status < 0`). -/
def isRefundStatus (logs : String) (order_status : Int) : Bool :=
  keywords5.any (fun kw => hasSubL kw.data (lowerStrL logs.data)) ||
    decide (order_status < 0)

/-! ## database.py: sync-task CRUD -/

/-- Model of `Database.add_sync_task`: `last_synced_at` is `now` when
`initial_attempts > 0` and `0` otherwise; an existing task with the same
`order_id` is updated in place (its `status_text` is kept), otherwise a
fresh task with `NULL` `status_text` is appended. -/
def addSyncTask (tasks : List SyncTask) (now : Int)
    (order_id chat_id message_id : Int)
    (initial_attempts max_attempts : Int)
    (douyin_url : String) (shequ_id : Int) (order_sn : String) :
    List SyncTask :=
  let last : Int := if initial_attempts > 0 then now else 0
  if tasks.any (fun t => t.order_id == order_id) then
    tasks.map (fun t =>
      if t.order_id == order_id then
        { t with
          chat_id := chat_id
          message_id := message_id
          attempts := initial_attempts
          max_attempts := max_attempts
          last_synced_at := some last
          douyin_url := douyin_url
          shequ_id := shequ_id
          order_sn := order_sn }
      else t)
  else
    tasks ++ [{ order_id := order_id
                chat_id := chat_id
                message_id := message_id
                attempts := initial_attempts
                max_attempts := max_attempts
                last_synced_at := some last
                douyin_url := douyin_url
                shequ_id := shequ_id
                order_sn := order_sn
                status_text := none }]

/-- Model of `Database.get_sync_task`. -/
def getSyncTask (tasks : List SyncTask) (oid : Int) : Option SyncTask :=
  tasks.find? (fun t => t.order_id == oid)

/-- The `WHERE` clause of `get_due_sync_tasks`:
`last_synced_at IS NULL OR last_synced_at = 0 OR last_synced_at <= now - interval`. -/
def isDue (now interval : Int) (t : SyncTask) : Bool :=
  match t.last_synced_at with
  | none => true
  | some v => v == 0 || decide (v ≤ now - interval)

/-- Model of `Database.get_due_sync_tasks`. -/
def getDueSyncTasks (now interval : Int) (tasks : List SyncTask) :
    List SyncTask :=
  tasks.filter (isDue now interval)

/-- Model of `Database.update_sync_task`. -/
def updateSyncTask (tasks : List SyncTask) (oid : Int)
    (attempts : Int) (last : Int) (status_text : Option String) :
    List SyncTask :=
  tasks.map (fun t =>
    if t.order_id == oid then
      { t with attempts := attempts, last_synced_at := some last,
               status_text := status_text }
    else t)

/-- Model of `Database.delete_sync_task`. -/
def deleteSyncTask (tasks : List SyncTask) (oid : Int) : List SyncTask :=
  tasks.filter (fun t => !(t.order_id == oid))

/-! ## database.py: delete_orders_by_shequ_ids -/

/-- Model of `Database.delete_orders_by_shequ_ids`: with an empty id list the
function returns 0 before touching the table; otherwise
`DELETE FROM orders WHERE shequ_id NOT IN (ids)` runs and `rowcount`
is returned. -/
def deleteOrdersByShequIds (table : List OrderRow) (ids : List Int) :
    List OrderRow × Nat :=
  if ids = [] then (table, 0)
  else
    let kept := table.filter (fun r => ids.contains r.shequ_id)
    (kept, table.length - kept.length)

/-! ## order_api.py: get_orders_page (paged listing with retry) -/

/-- Outcome of one HTTP GET attempt of `get_orders_page`. -/
inductive PageAttempt where
  | ok (body : ApiResult)
  | httpError (code : Nat)
  | exn (msg : String)
deriving DecidableEq, Repr

/-- Whether a page attempt is a 200 response. -/
def PageAttempt.isOk : PageAttempt → Bool
  | .ok _ => true
  | _ => false

/-- The retry loop of `OrderAPI.get_orders_page`, recursing on the
number of attempts remaining (at attempt index `attempt` the loop has
`remaining` attempts left; the `0` base case is the exhausted loop): a
200 response returns its body; otherwise the loop sleeps
`(attempt + 1) * 2` seconds and retries, except on the last attempt
(`remaining = 1`), where it returns `none`.  The second component
records the sleeps performed, in order. -/
def getOrdersPageGo (outcomes : Nat → PageAttempt) :
    Nat → Nat → Option ApiResult × List Nat
  | 0, _ => (none, [])
  | remaining + 1, attempt =>
    match outcomes attempt with
    | .ok body => (some body, [])
    | _ =>
      if remaining = 0 then (none, [])
      else
        let r := getOrdersPageGo outcomes remaining (attempt + 1)
        (r.1, (attempt + 1) * 2 :: r.2)

/-- Model of `OrderAPI.get_orders_page` (result and wait schedule). -/
def getOrdersPage (maxRetries : Nat) (outcomes : Nat → PageAttempt) :
    Option ApiResult × List Nat :=
  getOrdersPageGo outcomes maxRetries 0

/-! ## order_api.py: sync_order (resync with retry) -/

/-- Outcome of one HTTP POST attempt of `sync_order`. -/
inductive PostAttempt where
  | ok
  | apiError
  | httpError (code : Nat)
  | exn (msg : String)
deriving DecidableEq, Repr

/-- The value `sync_order` returns. -/
structure SyncResult where
  success : Bool
  attempt : Nat
  refund_status : Option String
  message : String
deriving DecidableEq, Repr

/-- The wait before a retry of `sync_order`:
`random.randint(lo * 60, hi * 60)` seconds, modelled from the random
draw `r` as `lo * 60 + r % (hi * 60 - lo * 60 + 1)` (the draw is
independent of the attempt number). -/
def randWait (lo hi : Nat) (r : Nat) : Nat :=
  lo * 60 + r % (hi * 60 - lo * 60 + 1)

/-- Search for the first keyword of `kws` occurring in `s`. -/
def firstKw (kws : List String) (s : List Char) : Option String :=
  kws.find? (fun kw => hasSubL kw.data s)

/-- The pre-attempt check of `sync_order`: when the fetched order detail
exists, scan its lower-cased raw `Logs` string for the three terminal
keywords, in list order. -/
def preCheck (od : Option ApiOrder) : Option String :=
  match od with
  | none => none
  | some o => firstKw keywords3 (lowerStrL o.logs.data)

/-- Failure message of the last `sync_order` attempt. -/
def syncFailMessage : PostAttempt → String
  | .ok => "同步成功"
  | .apiError => "同步失败，已达到最大重试次数"
  | .httpError code => "同步失败: HTTP " ++ toString code
  | .exn msg => "同步异常: " ++ msg

/-- The retry loop of `OrderAPI.sync_order`, recursing on the number of
attempts remaining (the `0` base case is the exhausted — or, with
`max_retries = 0`, never entered — loop, returning the post-loop
failure dict with `attempt = maxRetries`).  `details a` is what
`get_order_detail` would return before attempt `a`; `posts a` the
outcome of the POST of attempt `a`; `rand a` the random draw used for
the wait after attempt `a`.  The second component records the sleeps
performed. -/
def syncOrderGo (maxRetries : Nat) (lo hi : Nat)
    (details : Nat → Option ApiOrder) (posts : Nat → PostAttempt)
    (rand : Nat → Nat) : Nat → Nat → SyncResult × List Nat
  | 0, _ =>
    ({ success := false, attempt := maxRetries,
       refund_status := none, message := "同步失败" }, [])
  | remaining + 1, attempt =>
    match preCheck (details attempt) with
    | some kw =>
      ({ success := false, attempt := attempt + 1,
         refund_status := some kw, message := "订单" ++ kw }, [])
    | none =>
      match posts attempt with
      | .ok =>
        ({ success := true, attempt := attempt + 1,
           refund_status := none, message := "同步成功" }, [])
      | fail =>
        if remaining = 0 then
          ({ success := false, attempt := attempt + 1,
             refund_status := none, message := syncFailMessage fail }, [])
        else
          let r := syncOrderGo maxRetries lo hi details posts rand remaining
            (attempt + 1)
          (r.1, randWait lo hi (rand attempt) :: r.2)

/-- Model of `OrderAPI.sync_order` (result and wait schedule). -/
def syncOrder (maxRetries : Nat) (lo hi : Nat)
    (details : Nat → Option ApiOrder) (posts : Nat → PostAttempt)
    (rand : Nat → Nat) : SyncResult × List Nat :=
  syncOrderGo maxRetries lo hi details posts rand maxRetries 0

/-! ## order_api.py: _get_shequ_orders (per-channel bulk-sync paging) -/

/-- The calendar date derived from an epoch timestamp
(`datetime.fromtimestamp(t).date()`), modelled as the epoch day index;
only comparisons between such dates matter. -/
def dateOf (t : Int) : Int := Int.ediv t 86400

/-- The per-page filter loop of `_get_shequ_orders`: collect the orders
whose date lies in `[cutoff, today]`, skipping orders with a falsy
(zero) `CreateAt` and orders dated after `today`; stop at the first
order dated before `cutoff`, reporting `true` as the second component
(`should_break`), in which case the rest of the page is not scanned. -/
def filterRecentOrders (cutoff today : Int) :
    List ApiOrder → List ApiOrder × Bool
  | [] => ([], false)
  | o :: rest =>
    if o.create_at ≠ 0 then
      let d := dateOf o.create_at
      if cutoff ≤ d ∧ d ≤ today then
        let r := filterRecentOrders cutoff today rest
        (o :: r.1, r.2)
      else if d < cutoff then ([], true)
      else filterRecentOrders cutoff today rest
    else filterRecentOrders cutoff today rest

/-- The per-channel paging loop of `OrderAPI._get_shequ_orders`.
`pages p` is what `get_orders_page(page := p)` returns for page `p`
(`none`: failed after its internal retries).  Failed or error pages are
skipped up to page 100; an empty page ends the loop; otherwise the page
is filtered, and the loop continues only when no order crossed the
cutoff and the page held a full `pageSize` of orders.  `fuel` bounds
the number of iterations of the source's unbounded `while True` loop
(every theorem supplies enough fuel for the scenario it describes). -/
def getShequOrders (pageSize : Nat) (cutoff today : Int)
    (pages : Nat → Option ApiResult) : Nat → Nat → List ApiOrder
  | 0, _ => []
  | fuel + 1, page =>
    match pages page with
    | none =>
      if page + 1 > 100 then []
      else getShequOrders pageSize cutoff today pages fuel (page + 1)
    | some res =>
      if res.error ≠ 0 then
        if page + 1 > 100 then []
        else getShequOrders pageSize cutoff today pages fuel (page + 1)
      else if res.info = [] then []
      else
        let r := filterRecentOrders cutoff today res.info
        r.1 ++
          (if r.2 || res.info.length < pageSize then []
           else getShequOrders pageSize cutoff today pages fuel (page + 1))

/-! ## order_api.py: extract_refund_status -/

/-- Model of `OrderAPI.extract_refund_status`: with no order detail, `none`.
With a string `Logs` blob that fails to parse as JSON
(`logsEntries = none`), scan the raw string for the three keywords;
if found, return it, otherwise fall through to the status-text check
(the entry loop runs over an empty list).  With a parsed entry list,
scan the entries most-recent-first, returning the first keyword (in
keyword order) found in an entry.  Finally check the truthy
order-status display text for a keyword. -/
def extractRefundStatus (od : Option ApiOrder) : Option String :=
  match od with
  | none => none
  | some o =>
    let fromEntries :=
      match o.logsEntries with
      | none => firstKw keywords3 o.logs.data
      | some entries =>
        (entries.reverse).findSome? (fun c => firstKw keywords3 c.data)
    match fromEntries with
    | some kw => some kw
    | none =>
      match o.order_status_text with
      | none => none
      | some t => if t = "" then none else firstKw keywords3 t.data

/-! ## bot.py: _process_single_sync_task -/

/-- A `send_message` call (threaded reply to the original message). -/
structure Notification where
  chat_id : Int
  message_id : Int
  text : String
deriving DecidableEq, Repr

/-- The orders-table row `insert_order` builds from an upstream dict
(`create_at`, link extracted from `Params`, raw `Logs`, status,
channel). -/
def rowOfApi (o : ApiOrder) : OrderRow :=
  { order_id := o.id
    create_at := o.create_at
    douyin_url := o.params_douyin_url
    logs := o.logs
    order_status := o.order_status
    shequ_id := o.shequ_id }

/-- The store and outbound effects after processing one sync task. -/
structure ProcessResult where
  tasks : List SyncTask
  orders : List OrderRow
  notifications : List Notification
deriving Repr

/-- Model of `TelegramBot._process_single_sync_task`: run the (single-attempt)
resync giving `resultMessage`, refresh the order row from
`orderDetail` when present, extract the refund status from the detail,
bump `attempts` and stamp `last_synced_at := now` with the new status
text; when the extracted refund status is non-null, send exactly one
threaded notification `"订单" ++ kw` to the task's chat and delete the
task row. -/
def processSingleSyncTask (tasks : List SyncTask) (orders : List OrderRow)
    (task : SyncTask) (resultMessage : String)
    (orderDetail : Option ApiOrder) (now : Int) : ProcessResult :=
  let orders' :=
    match orderDetail with
    | some od => insertOrder orders (rowOfApi od)
    | none => orders
  let refund := extractRefundStatus orderDetail
  let attempts := task.attempts + 1
  let statusText : Option String :=
    match refund with
    | some kw => some kw
    | none => some resultMessage
  let tasks' := updateSyncTask tasks task.order_id attempts now statusText
  match refund with
  | some kw =>
    { tasks := deleteSyncTask tasks' task.order_id
      orders := orders'
      notifications := [⟨task.chat_id, task.message_id, "订单" ++ kw⟩] }
  | none =>
    { tasks := tasks', orders := orders', notifications := [] }

/-! ## Theorems -/

/-- C8: calling `delete_orders_by_shequ_ids` with an empty id list is a
no-op that returns 0: the table is untouched (the `NOT IN` clause is
never built), so an empty channel selection can never wipe the orders
table through this operation. -/
theorem c8_delete_orders_empty_ids_noop (table : List OrderRow) :
    deleteOrdersByShequIds table [] = (table, 0) := rfl

/-- A sync task whose `last_synced_at` equals `now - interval` exactly. -/
def c2Task : SyncTask := ⟨4, 0, 0, 0, 0, some 90, "", 0, "", none⟩

/-- C2 counterexample: with `now = 100` and `interval = 10`, a task with
`last_synced_at = 90 = now - interval` is returned by
`get_due_sync_tasks`, yet its `last_synced_at` is neither zero nor
older than `now - interval`, so the claimed "exactly zero-or-older"
characterization is false at this input. -/
theorem c2_due_tasks_counterexample :
    getDueSyncTasks 100 10 [c2Task] = [c2Task] ∧
      ¬((90 : Int) = 0 ∨ (90 : Int) < 100 - 10) := by
  refine ⟨by decide, by decide⟩

/-- The due predicate written out: `last_synced_at` is `NULL`, zero, or
at most `now - interval`. -/
def duePred (now interval : Int) (t : SyncTask) : Prop :=
  t.last_synced_at = none ∨ t.last_synced_at = some 0 ∨
    ∃ v, t.last_synced_at = some v ∧ v ≤ now - interval

theorem isDue_iff (now interval : Int) (t : SyncTask) :
    isDue now interval t = true ↔ duePred now interval t := by
  unfold isDue duePred
  cases h : t.last_synced_at with
  | none => simp
  | some v =>
    simp only [Bool.or_eq_true, beq_iff_eq, decide_eq_true_eq,
      Option.some.injEq, reduceCtorEq, false_or]
    constructor
    · rintro (rfl | hv)
      · exact Or.inl rfl
      · exact Or.inr ⟨v, rfl, hv⟩
    · rintro (rfl | ⟨w, hw, hle⟩)
      · exact Or.inl rfl
      · cases hw; exact Or.inr hle

/-- C2 amended: `due_sync_tasks(interval)` returns exactly the tasks
whose `last_synced_at` is `NULL`, zero, or at most `now - interval`
(boundary inclusive); and for `interval ≥ 1` and a positive `now`,
given three tasks with `last_synced_at` equal to `now`,
`now - interval - 1` and `0`, it returns exactly the latter two. -/
theorem c2_due_tasks_amended (now interval : Int) :
    (∀ (tasks : List SyncTask) (t : SyncTask),
        t ∈ getDueSyncTasks now interval tasks ↔
          t ∈ tasks ∧ duePred now interval t) ∧
    (1 ≤ interval → 0 < now →
      ∀ t1 t2 t3 : SyncTask,
        t1.last_synced_at = some now →
        t2.last_synced_at = some (now - interval - 1) →
        t3.last_synced_at = some 0 →
        getDueSyncTasks now interval [t1, t2, t3] = [t2, t3]) := by
  constructor
  · intro tasks t
    rw [getDueSyncTasks, List.mem_filter, isDue_iff]
  · intro hi hn t1 t2 t3 h1 h2 h3
    have e1 : isDue now interval t1 = false := by
      simp only [isDue, h1, Bool.or_eq_false_iff, beq_eq_false_iff_ne,
        ne_eq, decide_eq_false_iff_not, not_le]
      omega
    have e2 : isDue now interval t2 = true := by
      simp only [isDue, h2, Bool.or_eq_true, decide_eq_true_eq]
      right; omega
    have e3 : isDue now interval t3 = true := by
      simp [isDue, h3]
    simp [getDueSyncTasks, List.filter, e1, e2, e3]

/-- C2 amended, witness: the three-task example at `now = 100`,
`interval = 10`. -/
theorem c2_due_tasks_amended_witness :
    getDueSyncTasks 100 10
        [⟨1, 0, 0, 0, 0, some 100, "", 0, "", none⟩,
         ⟨2, 0, 0, 0, 0, some 89, "", 0, "", none⟩,
         ⟨3, 0, 0, 0, 0, some 0, "", 0, "", none⟩] =
      [⟨2, 0, 0, 0, 0, some 89, "", 0, "", none⟩,
       ⟨3, 0, 0, 0, 0, some 0, "", 0, "", none⟩] :=
  (c2_due_tasks_amended 100 10).2 (by decide) (by decide) _ _ _
    rfl (by decide) rfl

/-- A stored order row with `order_id = 7`. -/
def c4Old : OrderRow := ⟨7, 1, none, "old", 0, 0⟩

/-- A re-ingested order with the same `order_id = 7` but new field
values. -/
def c4New : OrderRow := ⟨7, 2, none, "new", 0, 0⟩

/-- C4 counterexample: batch-ingesting an order whose `order_id` already
exists leaves the old row untouched (and inserts nothing), so on the
batch path the stored row does not reflect the most recent ingest. -/
theorem c4_batch_overwrite_counterexample :
    insertOrdersBatch [c4Old] [c4New] = ([c4Old], 0) ∧
      c4Old.logs ≠ c4New.logs := by
  refine ⟨by decide, by decide⟩

theorem lookup_insertOrder (t : List OrderRow) (r : OrderRow) :
    lookupOrder (insertOrder t r) r.order_id = some r := by
  induction t with
  | nil => simp [insertOrder, lookupOrder, List.find?]
  | cons a t ih =>
    cases h : a.order_id == r.order_id with
    | true =>
      simp only [insertOrder, List.filter_cons, h, Bool.not_true,
        Bool.false_eq_true, if_false]
      simp only [insertOrder] at ih
      exact ih
    | false =>
      simp only [insertOrder, List.filter_cons, h, Bool.not_false, if_true,
        List.cons_append]
      simp only [lookupOrder, List.find?, h]
      simp only [insertOrder, lookupOrder] at ih
      exact ih

theorem countId_insertOrder (t : List OrderRow) (r : OrderRow)
    (h : ∀ oid, countId t oid ≤ 1) (oid : Int) :
    countId (insertOrder t r) oid ≤ 1 := by
  unfold countId insertOrder
  rw [List.filter_append, List.length_append]
  by_cases hid : oid = r.order_id
  · have h0 :
        List.filter (fun x => x.order_id == oid)
          (t.filter (fun x => !(x.order_id == r.order_id))) = [] := by
      apply List.filter_eq_nil_iff.mpr
      intro a ha
      have hq := List.of_mem_filter ha
      rw [Bool.not_eq_true'] at hq
      simp [hid, hq]
    rw [h0]
    simp [List.filter, hid]
  · have h1 : List.filter (fun x => x.order_id == oid) [r] = [] := by
      have hr : (r.order_id == oid) = false := by
        rw [beq_eq_false_iff_ne]
        exact fun hc => hid hc.symm
      simp [List.filter, hr]
    rw [h1]
    have h2 :
        (List.filter (fun x => x.order_id == oid)
            (t.filter (fun x => !(x.order_id == r.order_id)))).length ≤
          (List.filter (fun x => x.order_id == oid) t).length :=
      List.Sublist.length_le (List.Sublist.filter _ (List.filter_sublist _))
    simp only [List.length_nil, Nat.add_zero]
    exact le_trans h2 (h oid)

theorem countId_batch (rs : List OrderRow) (acc : List OrderRow × Nat)
    (h : ∀ oid, countId acc.1 oid ≤ 1) (oid : Int) :
    countId (rs.foldl insertOrderStep acc).1 oid ≤ 1 := by
  induction rs generalizing acc with
  | nil => exact h oid
  | cons o rs ih =>
    rw [List.foldl_cons]
    apply ih
    intro oid2
    unfold insertOrderStep
    by_cases he : orderExists acc.1 o.order_id
    · simp only [he, if_true]
      exact h oid2
    · simp only [he, if_false]
      exact countId_insertOrder acc.1 o h oid2

/-- C4 amended: the single-order ingest path (`insert_order`,
`INSERT OR REPLACE`) overwrites the row holding the same `order_id`
with the new field values, while the batch ingest path
(`insert_orders_batch`) skips an order whose `order_id` already exists,
leaving the stored row unchanged; on both paths `order_id` keeps
identifying at most one row. -/
theorem c4_upsert_uniqueness_amended (t : List OrderRow) (r : OrderRow) :
    lookupOrder (insertOrder t r) r.order_id = some r ∧
    ((∀ oid, countId t oid ≤ 1) →
      ∀ oid, countId (insertOrder t r) oid ≤ 1) ∧
    (∀ rs, (∀ oid, countId t oid ≤ 1) →
      ∀ oid, countId (insertOrdersBatch t rs).1 oid ≤ 1) ∧
    (orderExists t r.order_id = true → insertOrdersBatch t [r] = (t, 0)) := by
  refine ⟨lookup_insertOrder t r, countId_insertOrder t r, ?_, ?_⟩
  · intro rs h oid
    exact countId_batch rs (t, 0) h oid
  · intro he
    simp [insertOrdersBatch, insertOrderStep, he]

/-- C4 amended, witness: overwrite on the single path, skip on the
batch path, at the two concrete rows of the counterexample. -/
theorem c4_upsert_uniqueness_amended_witness :
    lookupOrder (insertOrder [c4Old] c4New) c4New.order_id = some c4New ∧
    (∀ oid, countId (insertOrder [c4Old] c4New) oid ≤ 1) ∧
    insertOrdersBatch [c4Old] [c4New] = ([c4Old], 0) := by
  refine ⟨(c4_upsert_uniqueness_amended [c4Old] c4New).1,
    (c4_upsert_uniqueness_amended [c4Old] c4New).2.1 ?_,
    (c4_upsert_uniqueness_amended [c4Old] c4New).2.2.2 (by decide)⟩
  intro oid
  unfold countId c4Old
  by_cases h7 : oid = 7
  · simp [List.filter, h7]
  · have : ((7 : Int) == oid) = false := by
      rw [beq_eq_false_iff_ne]
      exact fun hc => h7 hc.symm
    simp [List.filter, this]

theorem addSyncTask_exists_mem (tasks : List SyncTask) (now : Int)
    (oid cid mid ia ma : Int) (du : String) (sid : Int) (osn : String) :
    ∃ t ∈ addSyncTask tasks now oid cid mid ia ma du sid osn,
      t.order_id = oid := by
  unfold addSyncTask
  by_cases h : tasks.any (fun t => t.order_id == oid)
  · simp only [h, if_true]
    obtain ⟨x, hx, hpx⟩ := List.any_eq_true.mp h
    refine ⟨_, List.mem_map_of_mem _ hx, ?_⟩
    simp only [hpx, if_true]
    exact beq_iff_eq.mp hpx
  · simp only [h, if_false]
    exact ⟨_, List.mem_append_right _ (List.mem_singleton_self _), rfl⟩

theorem addSyncTask_last (tasks : List SyncTask) (now : Int)
    (oid cid mid ia ma : Int) (du : String) (sid : Int) (osn : String)
    (t : SyncTask) (ht : t ∈ addSyncTask tasks now oid cid mid ia ma du sid osn)
    (hid : t.order_id = oid) :
    t.last_synced_at = some (if ia > 0 then now else 0) := by
  unfold addSyncTask at ht
  by_cases h : tasks.any (fun t => t.order_id == oid)
  · simp only [h, if_true] at ht
    obtain ⟨x, hx, hfx⟩ := List.mem_map.mp ht
    by_cases hpx : (x.order_id == oid) = true
    · rw [← hfx]
      simp [hpx]
    · rw [Bool.not_eq_true] at hpx
      rw [hpx, if_neg (by simp)] at hfx
      · rw [← hfx] at hid
        exact absurd (beq_iff_eq.mpr hid) (by simp [hpx])
  · simp only [h, if_false] at ht
    rcases List.mem_append.mp ht with hmem | hmem
    · have hall := List.any_eq_false.mp (Bool.not_eq_true _ ▸ h) t hmem
      exact absurd (beq_iff_eq.mpr hid) (by simp [hall])
    · rw [List.mem_singleton.mp hmem]

/-- C9: a sync task added via `add_sync_task` with `initial_attempts = 0`
(the path used for every chat-triggered track) is stored with
`last_synced_at = 0` and is therefore contained in
`get_due_sync_tasks(interval)` for every `now` and every `interval`
(a freshly tracked order is always immediately due); only when
`initial_attempts > 0` is `last_synced_at` set to the current time. -/
theorem c9_fresh_task_immediately_due (tasks : List SyncTask) (now : Int)
    (oid cid mid ia ma : Int) (du : String) (sid : Int) (osn : String) :
    (∃ t ∈ addSyncTask tasks now oid cid mid ia ma du sid osn,
      t.order_id = oid) ∧
    (∀ t ∈ addSyncTask tasks now oid cid mid ia ma du sid osn,
      t.order_id = oid →
        t.last_synced_at = some (if ia > 0 then now else 0)) ∧
    (ia = 0 →
      ∀ t ∈ addSyncTask tasks now oid cid mid ia ma du sid osn,
        t.order_id = oid → ∀ now2 itv : Int,
          t ∈ getDueSyncTasks now2 itv
            (addSyncTask tasks now oid cid mid ia ma du sid osn)) := by
  refine ⟨addSyncTask_exists_mem tasks now oid cid mid ia ma du sid osn,
    fun t ht hid => addSyncTask_last tasks now oid cid mid ia ma du sid osn t ht hid,
    ?_⟩
  intro hia t ht hid now2 itv
  have hlast := addSyncTask_last tasks now oid cid mid ia ma du sid osn t ht hid
  rw [hia] at hlast
  simp only [gt_iff_lt, lt_self_iff_false, if_false] at hlast
  apply List.mem_filter.mpr
  refine ⟨ht, ?_⟩
  simp [isDue, hlast]

/-- C9, witness: adding order 42 with `initial_attempts = 0` to an empty
task table stores `last_synced_at = 0` and makes the task due at an
arbitrary later poll (`now2 = 98765`, `interval = 600`). -/
theorem c9_fresh_task_immediately_due_witness :
    (∃ t ∈ addSyncTask [] 1000 42 7 8 0 0 "u" 3 "sn", t.order_id = 42) ∧
    (∀ t ∈ addSyncTask [] 1000 42 7 8 0 0 "u" 3 "sn",
      t.order_id = 42 →
        t.last_synced_at = some 0 ∧
        t ∈ getDueSyncTasks 98765 600 (addSyncTask [] 1000 42 7 8 0 0 "u" 3 "sn")) := by
  refine ⟨(c9_fresh_task_immediately_due [] 1000 42 7 8 0 0 "u" 3 "sn").1,
    fun t ht hid => ⟨?_, ?_⟩⟩
  · have := (c9_fresh_task_immediately_due [] 1000 42 7 8 0 0 "u" 3 "sn").2.1 t ht hid
    simpa using this
  · exact (c9_fresh_task_immediately_due [] 1000 42 7 8 0 0 "u" 3 "sn").2.2 rfl
      t ht hid 98765 600

/-- C5: whenever a poll of a sync task extracts a non-null refund status
from the fetched order detail, `_process_single_sync_task` sends exactly
one notification, threaded to the chat and message stored in the task,
and deletes the task row, so no task with that `order_id` remains to
accumulate further attempts. -/
theorem c5_terminal_notify_and_delete (tasks : List SyncTask)
    (orders : List OrderRow) (task : SyncTask) (msg : String)
    (od : Option ApiOrder) (now : Int) (kw : String)
    (h : extractRefundStatus od = some kw) :
    (processSingleSyncTask tasks orders task msg od now).notifications =
      [⟨task.chat_id, task.message_id, "订单" ++ kw⟩] ∧
    ∀ t ∈ (processSingleSyncTask tasks orders task msg od now).tasks,
      t.order_id ≠ task.order_id := by
  unfold processSingleSyncTask
  rw [h]
  refine ⟨rfl, ?_⟩
  intro t ht
  have hmem := List.of_mem_filter ht
  rw [Bool.not_eq_true'] at hmem
  exact beq_eq_false_iff_ne.mp hmem

/-- An order detail whose raw log blob holds the terminal keyword. -/
def c5Detail : ApiOrder := ⟨1, 0, "已退款", none, none, 0, 0, none⟩

/-- The tracked sync task for order 42, replying to message 8 of chat 7. -/
def c5TaskEx : SyncTask := ⟨42, 7, 8, 0, 0, some 0, "", 0, "", none⟩

/-- C5, witness: processing the task for order 42 against a detail whose
logs read `已退款` produces exactly the one threaded notification
`订单已退款` and leaves no task for order 42. -/
theorem c5_terminal_notify_and_delete_witness :
    extractRefundStatus (some c5Detail) = some "已退款" ∧
    (processSingleSyncTask [c5TaskEx] [] c5TaskEx "m" (some c5Detail)
        500).notifications = [⟨7, 8, "订单已退款"⟩] ∧
    ∀ t ∈ (processSingleSyncTask [c5TaskEx] [] c5TaskEx "m" (some c5Detail)
        500).tasks, t.order_id ≠ 42 := by
  have h : extractRefundStatus (some c5Detail) = some "已退款" := by decide
  refine ⟨h, ?_, ?_⟩
  · rw [(c5_terminal_notify_and_delete [c5TaskEx] [] c5TaskEx "m"
      (some c5Detail) 500 "已退款" h).1]
    decide
  · intro t ht
    exact (c5_terminal_notify_and_delete [c5TaskEx] [] c5TaskEx "m"
      (some c5Detail) 500 "已退款" h).2 t ht

theorem getOrdersPageGo_all_fail (oc : Nat → PageAttempt) :
    ∀ (remaining attempt : Nat),
      (∀ a, a < attempt + remaining → (oc a).isOk = false) →
      getOrdersPageGo oc remaining attempt =
        (none, (List.range' (attempt + 1) (remaining - 1)).map
          (fun k => k * 2)) := by
  intro remaining
  induction remaining with
  | zero =>
    intro attempt _
    simp [getOrdersPageGo]
  | succ remaining ih =>
    intro attempt hfail
    rw [getOrdersPageGo]
    cases hoc : oc attempt with
    | ok body =>
      have : (oc attempt).isOk = true := by rw [hoc]; rfl
      rw [hfail attempt (by omega)] at this
      exact absurd this (by simp)
    | httpError code =>
      cases remaining with
      | zero => simp
      | succ k =>
        simp only [Nat.succ_ne_zero, if_false]
        rw [ih (attempt + 1) (fun a ha => hfail a (by omega))]
        rw [show k + 1 + 1 - 1 = (k + 1 - 1) + 1 from by omega,
          List.range'_succ, List.map_cons]
    | exn msg =>
      cases remaining with
      | zero => simp
      | succ k =>
        simp only [Nat.succ_ne_zero, if_false]
        rw [ih (attempt + 1) (fun a ha => hfail a (by omega))]
        rw [show k + 1 + 1 - 1 = (k + 1 - 1) + 1 from by omega,
          List.range'_succ, List.map_cons]

theorem syncOrderGo_all_fail (m lo hi : Nat)
    (details : Nat → Option ApiOrder) (posts : Nat → PostAttempt)
    (rand : Nat → Nat) :
    ∀ (remaining attempt : Nat),
      (∀ a, a < attempt + remaining → preCheck (details a) = none) →
      (∀ a, a < attempt + remaining → posts a ≠ PostAttempt.ok) →
      (syncOrderGo m lo hi details posts rand remaining attempt).1.success
          = false ∧
      (syncOrderGo m lo hi details posts rand remaining
          attempt).1.refund_status = none ∧
      (syncOrderGo m lo hi details posts rand remaining attempt).2 =
        (List.range' attempt (remaining - 1)).map
          (fun a => randWait lo hi (rand a)) := by
  intro remaining
  induction remaining with
  | zero =>
    intro attempt _ _
    simp [syncOrderGo]
  | succ remaining ih =>
    intro attempt hpre hpost
    rw [syncOrderGo, hpre attempt (by omega)]
    cases hoc : posts attempt with
    | ok => exact absurd hoc (hpost attempt (by omega))
    | apiError =>
      cases remaining with
      | zero => simp
      | succ k =>
        simp only [Nat.succ_ne_zero, if_false]
        obtain ⟨h1, h2, h3⟩ := ih (attempt + 1)
          (fun a ha => hpre a (by omega)) (fun a ha => hpost a (by omega))
        refine ⟨h1, h2, ?_⟩
        rw [h3, show k + 1 + 1 - 1 = (k + 1 - 1) + 1 from by omega,
          List.range'_succ, List.map_cons]
    | httpError code =>
      cases remaining with
      | zero => simp
      | succ k =>
        simp only [Nat.succ_ne_zero, if_false]
        obtain ⟨h1, h2, h3⟩ := ih (attempt + 1)
          (fun a ha => hpre a (by omega)) (fun a ha => hpost a (by omega))
        refine ⟨h1, h2, ?_⟩
        rw [h3, show k + 1 + 1 - 1 = (k + 1 - 1) + 1 from by omega,
          List.range'_succ, List.map_cons]
    | exn msg =>
      cases remaining with
      | zero => simp
      | succ k =>
        simp only [Nat.succ_ne_zero, if_false]
        obtain ⟨h1, h2, h3⟩ := ih (attempt + 1)
          (fun a ha => hpre a (by omega)) (fun a ha => hpost a (by omega))
        refine ⟨h1, h2, ?_⟩
        rw [h3, show k + 1 + 1 - 1 = (k + 1 - 1) + 1 from by omega,
          List.range'_succ, List.map_cons]

/-- C3 counterexample: in the resync retry loop (`sync_order`, here with
its default 3–5 minute interval and the random draw fixed at its lower
end), the waits between the three attempts are `[180, 180]` seconds —
a constant schedule, not `attempt_number * fixed_unit`, which for two
waits would have to read `[1 * u, 2 * u]` for some unit `u`. -/
theorem c3_sync_backoff_counterexample :
    (syncOrder 3 3 5 (fun _ => none) (fun _ => PostAttempt.apiError)
      (fun _ => 0)).2 = [180, 180] ∧
    ¬ ∃ u : Nat,
      (syncOrder 3 3 5 (fun _ => none) (fun _ => PostAttempt.apiError)
        (fun _ => 0)).2 = [1 * u, 2 * u] := by
  have hv : (syncOrder 3 3 5 (fun _ => none) (fun _ => PostAttempt.apiError)
      (fun _ => 0)).2 = [180, 180] := by decide
  refine ⟨hv, ?_⟩
  rintro ⟨u, hu⟩
  rw [hv] at hu
  have h1 : 180 = 1 * u := (List.cons.injEq _ _ _ _).mp hu |>.1
  have h2 : 180 = 2 * u := by
    have := (List.cons.injEq _ _ _ _).mp hu |>.2
    exact ((List.cons.injEq _ _ _ _).mp this).1
  omega

/-- C3 amended: the paged-listing retry loop (`get_orders_page`) waits
linearly — after the k-th failed attempt (1-based) it sleeps `k * 2`
seconds — and returns the sentinel `none` once every attempt has
failed; the resync retry loop (`sync_order`) also returns an explicit
failure result (`success = false`, no refund status) instead of raising
once every attempt has failed, but its waits are random draws from a
fixed 3–5 minute range, independent of the attempt number. -/
theorem c3_retry_backoff_amended (m lo hi : Nat) :
    (∀ oc : Nat → PageAttempt, (∀ a, a < m → (oc a).isOk = false) →
      getOrdersPage m oc =
        (none, (List.range' 1 (m - 1)).map (fun k => k * 2))) ∧
    (∀ (details : Nat → Option ApiOrder) (posts : Nat → PostAttempt)
        (rand : Nat → Nat),
      (∀ a, a < m → preCheck (details a) = none) →
      (∀ a, a < m → posts a ≠ PostAttempt.ok) →
      (syncOrder m lo hi details posts rand).1.success = false ∧
      (syncOrder m lo hi details posts rand).1.refund_status = none ∧
      (syncOrder m lo hi details posts rand).2 =
        (List.range' 0 (m - 1)).map (fun a => randWait lo hi (rand a))) := by
  constructor
  · intro oc hfail
    exact getOrdersPageGo_all_fail oc m 0 (fun a ha => hfail a (by omega))
  · intro details posts rand hpre hpost
    exact syncOrderGo_all_fail m lo hi details posts rand m 0
      (fun a ha => hpre a (by omega)) (fun a ha => hpost a (by omega))

/-- C3 amended, witness: three failing listing attempts yield waits
`[2, 4]` and the sentinel `none`; two failing resync attempts yield an
explicit failure result. -/
theorem c3_retry_backoff_amended_witness :
    getOrdersPage 3 (fun _ => PageAttempt.httpError 500) = (none, [2, 4]) ∧
    (syncOrder 2 0 0 (fun _ => none) (fun _ => PostAttempt.exn "e")
      (fun _ => 0)).1.success = false := by
  constructor
  · rw [(c3_retry_backoff_amended 3 0 0).1 (fun _ => PageAttempt.httpError 500)
      (fun a _ => rfl)]
    decide
  · exact ((c3_retry_backoff_amended 2 0 0).2 (fun _ => none)
      (fun _ => PostAttempt.exn "e") (fun _ => 0) (fun a _ => rfl)
      (fun a _ h => PostAttempt.noConfusion h)).1

theorem filterRecentOrders_break_iff (cutoff today : Int) (l : List ApiOrder) :
    (filterRecentOrders cutoff today l).2 = true ↔
      ∃ o ∈ l, o.create_at ≠ 0 ∧ dateOf o.create_at < cutoff := by
  induction l with
  | nil => simp [filterRecentOrders]
  | cons o rest ih =>
    rw [filterRecentOrders]
    by_cases h0 : o.create_at ≠ 0
    · rw [if_pos h0]
      by_cases h1 : cutoff ≤ dateOf o.create_at ∧ dateOf o.create_at ≤ today
      · rw [if_pos h1]
        simp only [List.mem_cons]
        constructor
        · intro hb
          obtain ⟨x, hx, hxp⟩ := ih.mp hb
          exact ⟨x, Or.inr hx, hxp⟩
        · rintro ⟨x, hx | hx, hxp⟩
          · subst hx
            exact absurd hxp.2 (not_lt.mpr h1.1)
          · exact ih.mpr ⟨x, hx, hxp⟩
      · rw [if_neg h1]
        by_cases h2 : dateOf o.create_at < cutoff
        · rw [if_pos h2]
          exact ⟨fun _ => ⟨o, List.mem_cons_self o rest, h0, h2⟩, fun _ => rfl⟩
        · rw [if_neg h2]
          simp only [List.mem_cons]
          constructor
          · intro hb
            obtain ⟨x, hx, hxp⟩ := ih.mp hb
            exact ⟨x, Or.inr hx, hxp⟩
          · rintro ⟨x, hx | hx, hxp⟩
            · subst hx
              exact absurd hxp.2 h2
            · exact ih.mpr ⟨x, hx, hxp⟩
    · rw [if_neg h0]
      simp only [List.mem_cons]
      constructor
      · intro hb
        obtain ⟨x, hx, hxp⟩ := ih.mp hb
        exact ⟨x, Or.inr hx, hxp⟩
      · rintro ⟨x, hx | hx, hxp⟩
        · subst hx
          exact absurd hxp.1 h0
        · exact ih.mpr ⟨x, hx, hxp⟩

/-- C6: per-channel bulk-sync pagination (a) stops at a page containing
an order dated before the retention cutoff, whatever the page's size —
the page contributes only the orders collected before the cutoff was
crossed and no further page is fetched; (b) continues to the next page
when the page holds a full `pageSize` of orders all of whose dated
orders lie within the retention window; (c) treats a page with fewer
than `pageSize` orders as the last page. -/
theorem c6_pagination_cutoff (pageSize : Nat) (cutoff today : Int)
    (pages : Nat → Option ApiResult) (fuel page : Nat) (res : ApiResult)
    (hres : pages page = some res) (herr : res.error = 0)
    (hne : res.info ≠ []) :
    ((∃ o ∈ res.info, o.create_at ≠ 0 ∧ dateOf o.create_at < cutoff) →
      getShequOrders pageSize cutoff today pages (fuel + 1) page =
        (filterRecentOrders cutoff today res.info).1) ∧
    (res.info.length = pageSize →
      (∀ o ∈ res.info, o.create_at ≠ 0 →
        cutoff ≤ dateOf o.create_at ∧ dateOf o.create_at ≤ today) →
      getShequOrders pageSize cutoff today pages (fuel + 1) page =
        (filterRecentOrders cutoff today res.info).1 ++
          getShequOrders pageSize cutoff today pages fuel (page + 1)) ∧
    (res.info.length < pageSize →
      getShequOrders pageSize cutoff today pages (fuel + 1) page =
        (filterRecentOrders cutoff today res.info).1) := by
  have herr2 : ¬ res.error ≠ 0 := by simp [herr]
  refine ⟨?_, ?_, ?_⟩
  · intro hex
    have hb : (filterRecentOrders cutoff today res.info).2 = true :=
      (filterRecentOrders_break_iff cutoff today res.info).mpr hex
    rw [getShequOrders, hres]
    simp only [herr2, if_false, hne, hb, Bool.true_or, if_true,
      List.append_nil]
  · intro hlen hin
    have hb : (filterRecentOrders cutoff today res.info).2 = false := by
      rw [Bool.eq_false_iff, Ne, filterRecentOrders_break_iff]
      rintro ⟨o, ho, h0, hlt⟩
      have := (hin o ho h0).1
      omega
    have hnl : ¬ res.info.length < pageSize := by omega
    rw [getShequOrders, hres]
    simp only [herr2, if_false, hne, hb, Bool.false_or,
      decide_eq_true_eq, hnl]
  · intro hlen
    rw [getShequOrders, hres]
    simp only [herr2, if_false, hne, hlen, decide_True, Bool.or_true,
      if_true, List.append_nil]

/-- An order dated inside the retention window (epoch day 11). -/
def c6In1 : ApiOrder := ⟨1, 950400, "", none, none, 0, 0, none⟩

/-- A second in-window order (epoch day 11). -/
def c6In2 : ApiOrder := ⟨2, 950400, "", none, none, 0, 0, none⟩

/-- A third in-window order (epoch day 11). -/
def c6In3 : ApiOrder := ⟨3, 950400, "", none, none, 0, 0, none⟩

/-- An order dated before the cutoff (epoch day 9 < cutoff day 10). -/
def c6Old : ApiOrder := ⟨4, 777600, "", none, none, 0, 0, none⟩

/-- Backend oracle: page 1 is full-sized but holds a pre-cutoff order. -/
def c6PagesStop : Nat → Option ApiResult :=
  fun p => if p = 1 then some ⟨0, [c6In1, c6Old]⟩ else some ⟨0, [c6In3]⟩

/-- Backend oracle: page 1 is full-sized and entirely in-window; page 2
is short (last page). -/
def c6PagesCont : Nat → Option ApiResult :=
  fun p => if p = 1 then some ⟨0, [c6In1, c6In2]⟩ else some ⟨0, [c6In3]⟩

/-- C6, witness: with `pageSize = 2`, cutoff day 10 and today day 12 —
(a) the full page holding a pre-cutoff order stops pagination (page 2
is never reached); (b) the full in-window page continues to the short
page 2; (c) a short page is the last page. -/
theorem c6_pagination_cutoff_witness :
    getShequOrders 2 10 12 c6PagesStop 5 1 = [c6In1] ∧
    getShequOrders 2 10 12 c6PagesCont 5 1 = [c6In1, c6In2, c6In3] ∧
    getShequOrders 2 10 12 (fun _ => some ⟨0, [c6In3]⟩) 5 1 = [c6In3] := by
  refine ⟨?_, ?_, ?_⟩
  · rw [(c6_pagination_cutoff 2 10 12 c6PagesStop 4 1 ⟨0, [c6In1, c6Old]⟩
      rfl rfl (by decide)).1 (by decide)]
    decide
  · rw [(c6_pagination_cutoff 2 10 12 c6PagesCont 4 1 ⟨0, [c6In1, c6In2]⟩
      rfl rfl (by decide)).2.1 (by decide) (by decide)]
    decide
  · rw [(c6_pagination_cutoff 2 10 12 (fun _ => some ⟨0, [c6In3]⟩) 4 1
      ⟨0, [c6In3]⟩ rfl rfl (by decide)).2.2 (by decide)]
    decide

theorem pickTop_eq_none (l : List OrderRow) (h : pickTop l = none) :
    l = [] := by
  cases l with
  | nil => rfl
  | cons a rest =>
    rw [pickTop] at h
    cases hp : pickTop rest with
    | none =>
      rw [hp] at h
      exact Option.noConfusion h
    | some b =>
      rw [hp] at h
      have h2 : (if b.create_at > a.create_at then some b else some a) =
          (none : Option OrderRow) := h
      by_cases hgt : b.create_at > a.create_at
      · rw [if_pos hgt] at h2
        exact Option.noConfusion h2
      · rw [if_neg hgt] at h2
        exact Option.noConfusion h2

theorem pickTop_spec (l : List OrderRow) (r : OrderRow)
    (h : pickTop l = some r) :
    r ∈ l ∧ ∀ x ∈ l, x.create_at ≤ r.create_at := by
  induction l generalizing r with
  | nil => exact Option.noConfusion h
  | cons a rest ih =>
    rw [pickTop] at h
    cases hp : pickTop rest with
    | none =>
      rw [hp] at h
      have hr : a = r := by
        injection h
      have hrest : rest = [] := pickTop_eq_none rest hp
      subst hr
      subst hrest
      exact ⟨List.mem_singleton_self a, by
        intro x hx
        rw [List.mem_singleton.mp hx]⟩
    | some b =>
      rw [hp] at h
      have h2 : (if b.create_at > a.create_at then some b else some a) =
          some r := h
      by_cases hgt : b.create_at > a.create_at
      · rw [if_pos hgt] at h2
        have hr : b = r := by injection h2
        subst hr
        obtain ⟨hmem, hbound⟩ := ih b hp
        refine ⟨List.mem_cons_of_mem a hmem, ?_⟩
        intro x hx
        rcases List.mem_cons.mp hx with hx | hx
        · rw [hx]
          exact le_of_lt hgt
        · exact hbound x hx
      · rw [if_neg hgt] at h2
        have hr : a = r := by injection h2
        subst hr
        obtain ⟨hmem, hbound⟩ := ih b hp
        refine ⟨List.mem_cons_self a rest, ?_⟩
        intro x hx
        rcases List.mem_cons.mp hx with hx | hx
        · rw [hx]
        · exact le_trans (hbound x hx) (not_lt.mp hgt)

/-- The queried link of the C1 scenario. -/
def c1Url : String := "https://v.douyin.com/abc"

/-- The earlier-stored matching order, `order_id = 1`. -/
def c1Row1 : OrderRow := ⟨1, 10, some "https://v.douyin.com/abc/", "", 0, 0⟩

/-- A later-stored matching order with the same `create_at` but greater
`order_id = 2`. -/
def c1Row2 : OrderRow := ⟨2, 10, some "https://v.douyin.com/abc/", "", 0, 0⟩

/-- C1 counterexample: with two matching orders sharing the same
`create_at`, the query (which orders by `create_at DESC` only) returns
the first-stored row with `order_id = 1`, not the row with the greater
`order_id = 2` — so the tie is not broken by `order_id` descending. -/
theorem c1_tiebreak_counterexample :
    findOrderByDouyinUrl c1Url [c1Row1, c1Row2] = some c1Row1 ∧
    c1Row2 ∈ findCandidates c1Url [c1Row1, c1Row2] ∧
    c1Row2.create_at = c1Row1.create_at ∧
    c1Row1.order_id < c1Row2.order_id := by
  refine ⟨by decide, by decide, by decide, by decide⟩

/-- C1 amended: `find_order_by_douyin_url` returns a matching order
whose `create_at` is maximal among all matching rows; among rows tied
on `create_at` the choice falls on the first matching row in storage
order (the query has no secondary sort key), not on `order_id`
descending.  Determinism holds trivially: the result is a function of
the queried link and the stored table. -/
theorem c1_find_order_amended (url : String) (table : List OrderRow)
    (r : OrderRow) (h : findOrderByDouyinUrl url table = some r) :
    r ∈ findCandidates url table ∧
    ∀ x ∈ findCandidates url table, x.create_at ≤ r.create_at :=
  pickTop_spec (findCandidates url table) r h

/-- C1 amended, witness: at the two-row table of the counterexample the
returned row is a matching row and its `create_at` bounds every
match. -/
theorem c1_find_order_amended_witness :
    findOrderByDouyinUrl c1Url [c1Row1, c1Row2] = some c1Row1 ∧
    c1Row1 ∈ findCandidates c1Url [c1Row1, c1Row2] ∧
    ∀ x ∈ findCandidates c1Url [c1Row1, c1Row2],
      x.create_at ≤ c1Row1.create_at := by
  have h : findOrderByDouyinUrl c1Url [c1Row1, c1Row2] = some c1Row1 := by
    decide
  exact ⟨h, (c1_find_order_amended c1Url [c1Row1, c1Row2] c1Row1 h).1,
    (c1_find_order_amended c1Url [c1Row1, c1Row2] c1Row1 h).2⟩

/-- No character of the list is (ASCII) whitespace — true of every
real URL. -/
def wsFree (l : List Char) : Prop := ∀ c ∈ l, isPySpace c = false

theorem dropWhile_eq_self_of (p : Char → Bool) (l : List Char)
    (h : ∀ c ∈ l, p c = false) : l.dropWhile p = l := by
  cases l with
  | nil => rfl
  | cons c t =>
    rw [List.dropWhile_cons, h c (List.mem_cons_self c t)]
    simp

theorem dropTrailingL_eq_self_of (p : Char → Bool) (l : List Char)
    (h : ∀ c ∈ l, p c = false) : dropTrailingL p l = l := by
  unfold dropTrailingL
  rw [dropWhile_eq_self_of p l.reverse
    (fun c hc => h c (List.mem_reverse.mp hc)), List.reverse_reverse]

theorem pyStripL_eq_self (l : List Char) (hws : wsFree l) :
    pyStripL l = l := by
  unfold pyStripL
  rw [dropWhile_eq_self_of isPySpace l hws,
    dropTrailingL_eq_self_of isPySpace l hws]

theorem mem_of_mem_dropTrailingL (p : Char → Bool) (l : List Char)
    (c : Char) (hc : c ∈ dropTrailingL p l) : c ∈ l := by
  unfold dropTrailingL at hc
  rw [List.mem_reverse] at hc
  exact List.mem_reverse.mp ((List.dropWhile_sublist _).mem hc)

theorem dropWhile_head_false (q : Char → Bool) :
    ∀ (m : List Char) (c : Char) (t : List Char),
      m.dropWhile q = c :: t → q c = false := by
  intro m
  induction m with
  | nil =>
    intro c t h
    exact List.noConfusion h
  | cons a m ih =>
    intro c t h
    rw [List.dropWhile_cons] at h
    by_cases ha : q a = true
    · rw [if_pos ha] at h
      exact ih c t h
    · rw [if_neg ha] at h
      have : a = c := (List.cons.injEq a m c t).mp h |>.1
      rw [← this]
      exact Bool.not_eq_true _ ▸ ha

theorem rstripSlashL_not_endsSlash (l : List Char) :
    endsSlashL (rstripSlashL l) = false := by
  simp only [endsSlashL, rstripSlashL, dropTrailingL, List.reverse_reverse]
  cases hd : l.reverse.dropWhile (fun c => c == '/') with
  | nil => rfl
  | cons c t => exact dropWhile_head_false _ l.reverse c t hd

theorem rstripSlashL_eq_self (l : List Char) (h : endsSlashL l = false) :
    rstripSlashL l = l := by
  unfold rstripSlashL dropTrailingL
  cases hr : l.reverse with
  | nil =>
    have : l = [] := List.reverse_eq_nil_iff.mp hr
    rw [this]
    rfl
  | cons c t =>
    have hc : (c == '/') = false := by
      simp only [endsSlashL, hr] at h
      exact h
    rw [List.dropWhile_cons, hc]
    simp only [Bool.false_eq_true, if_false, ← hr, List.reverse_reverse]

theorem rstripSlashL_append_slash (l : List Char) :
    rstripSlashL (l ++ ['/']) = rstripSlashL l := by
  unfold rstripSlashL dropTrailingL
  rw [List.reverse_append]
  rfl

theorem wsFree_rstripSlashL (l : List Char) (hws : wsFree l) :
    wsFree (rstripSlashL l) :=
  fun c hc => hws c (mem_of_mem_dropTrailingL _ l c hc)

theorem normalizeUrlL_eq (l : List Char) (h0 : l ≠ []) (hws : wsFree l) :
    normalizeUrlL l =
      if hasSubL ("v.douyin.com".data) (rstripSlashL l) then
        rstripSlashL l ++ ['/']
      else rstripSlashL l := by
  unfold normalizeUrlL
  rw [if_neg h0]
  simp only [pyStripL_eq_self l hws, rstripSlashL_not_endsSlash l,
    Bool.false_eq_true, if_false]

theorem normalizeUrlL_idem (l : List Char) (hws : wsFree l) :
    normalizeUrlL (normalizeUrlL l) = normalizeUrlL l := by
  by_cases h0 : l = []
  · subst h0
    rfl
  · rw [normalizeUrlL_eq l h0 hws]
    have hwsu : wsFree (rstripSlashL l) := wsFree_rstripSlashL l hws
    by_cases hd : hasSubL ("v.douyin.com".data) (rstripSlashL l) = true
    · rw [if_pos hd]
      have hne : rstripSlashL l ++ ['/'] ≠ [] := by simp
      have hws2 : wsFree (rstripSlashL l ++ ['/']) := by
        intro c hc
        rcases List.mem_append.mp hc with hc | hc
        · exact hwsu c hc
        · rw [List.mem_singleton.mp hc]
          rfl
      rw [normalizeUrlL_eq _ hne hws2, rstripSlashL_append_slash,
        rstripSlashL_eq_self _ (rstripSlashL_not_endsSlash l), if_pos hd]
    · rw [if_neg hd]
      by_cases hu : rstripSlashL l = []
      · rw [hu]
        rfl
      · rw [normalizeUrlL_eq _ hu hwsu,
          rstripSlashL_eq_self _ (rstripSlashL_not_endsSlash l), if_neg hd]

theorem normalizeUrlL_slash (l : List Char) (hws : wsFree l) :
    normalizeUrlL (l ++ ['/']) = normalizeUrlL l := by
  by_cases h0 : l = []
  · subst h0
    decide
  · have hne : l ++ ['/'] ≠ [] := by simp
    have hws2 : wsFree (l ++ ['/']) := by
      intro c hc
      rcases List.mem_append.mp hc with hc | hc
      · exact hws c hc
      · rw [List.mem_singleton.mp hc]
        rfl
    rw [normalizeUrlL_eq _ hne hws2, normalizeUrlL_eq l h0 hws,
      rstripSlashL_append_slash]

/-- C7 counterexample: `normalize_url` is not idempotent on every input
string: on `"a /"` the `rstrip('/')` exposes the trailing space, which
only the second application's `strip()` removes, so
`normalize(normalize("a /")) = "a" ≠ "a " = normalize("a /")`. -/
theorem c7_normalize_idem_counterexample :
    normalizeUrl (normalizeUrl "a /") ≠ normalizeUrl "a /" := by decide

/-- C7 amended: on every whitespace-free input — in particular every
real URL — `normalize_url` is idempotent, and appending a trailing
slash to the input does not change the normalized value (for
canonical-domain links the function strips all trailing slashes and
re-appends exactly one).  On strings holding whitespace before a
trailing slash, idempotence fails (see the counterexample). -/
theorem c7_normalize_idem_amended (s : String)
    (hws : ∀ c ∈ s.data, isPySpace c = false) :
    normalizeUrl (normalizeUrl s) = normalizeUrl s ∧
    normalizeUrl (s ++ "/") = normalizeUrl s := by
  constructor
  · exact congrArg String.mk (normalizeUrlL_idem s.data hws)
  · exact congrArg String.mk (normalizeUrlL_slash s.data hws)

/-- C7 amended, witness: idempotence and trailing-slash insensitivity
at the canonical-domain URL `https://v.douyin.com/abc`. -/
theorem c7_normalize_idem_amended_witness :
    normalizeUrl (normalizeUrl "https://v.douyin.com/abc") =
      normalizeUrl "https://v.douyin.com/abc" ∧
    normalizeUrl ("https://v.douyin.com/abc" ++ "/") =
      normalizeUrl "https://v.douyin.com/abc" :=
  c7_normalize_idem_amended "https://v.douyin.com/abc" (by decide)

theorem isPrefixOf_map_lower :
    ∀ (pat m : List Char), (∀ c ∈ pat, asciiLower c = c) →
      pat.isPrefixOf m = true → pat.isPrefixOf (lowerStrL m) = true := by
  intro pat
  induction pat with
  | nil =>
    intro m _ _
    cases h : lowerStrL m with
    | nil => rfl
    | cons c t => rfl
  | cons p ps ih =>
    intro m hfix hpre
    cases m with
    | nil => exact Bool.noConfusion hpre
    | cons c m2 =>
      rw [List.isPrefixOf_cons₂] at hpre
      obtain ⟨hpc, hrest⟩ := Bool.and_eq_true_iff.mp hpre
      have hp : p = c := beq_iff_eq.mp hpc
      simp only [lowerStrL, List.map_cons, List.isPrefixOf_cons₂,
        Bool.and_eq_true]
      constructor
      · rw [← hp, hfix p (List.mem_cons_self p ps)]
        exact beq_self_eq_true p
      · exact ih m2 (fun c hc => hfix c (List.mem_cons_of_mem p hc)) hrest

theorem hasSubL_map_lower (pat : List Char)
    (hfix : ∀ c ∈ pat, asciiLower c = c) :
    ∀ s : List Char, hasSubL pat s = true →
      hasSubL pat (lowerStrL s) = true := by
  intro s
  induction s with
  | nil =>
    intro h
    exact h
  | cons c rest ih =>
    intro h
    rw [hasSubL, Bool.or_eq_true] at h
    simp only [lowerStrL, List.map_cons, hasSubL, Bool.or_eq_true]
    rcases h with h | h
    · left
      have := isPrefixOf_map_lower pat (c :: rest) hfix h
      simpa [lowerStrL] using this
    · right
      have := ih h
      simpa [lowerStrL] using this

/-- An order whose plain-string logs hold no keyword but whose
order-status display text does. -/
def c10Order : ApiOrder := ⟨1, 0, "x", none, some "已退款", 0, 0, none⟩

/-- C10 counterexample: the claimed forward implication fails as stated:
on an order whose logs field is the plain string `"x"`,
`extract_refund_status` still returns `已退款` through its
`OrderStatusText` fallback, while `is_refund_status` — which reads only
the logs and the numeric status — returns false. -/
theorem c10_refund_checks_counterexample :
    c10Order.logsEntries = none ∧
    extractRefundStatus (some c10Order) = some "已退款" ∧
    isRefundStatus c10Order.logs c10Order.order_status = false := by
  refine ⟨rfl, by decide, by decide⟩

/-- C10 amended: for orders carrying no order-status display text — the
shape of every stored row `is_refund_status` is applied to — a non-null
`extract_refund_status` on plain-string logs implies
`is_refund_status` (each extractor keyword contains a pre-tracking
keyword); the converse fails: logs of `退款中` or `退单`, or a negative
`order_status`, satisfy `is_refund_status` while
`extract_refund_status` stays null. -/
theorem c10_refund_checks_amended :
    (∀ (o : ApiOrder) (kw : String), o.logsEntries = none →
      o.order_status_text = none →
      extractRefundStatus (some o) = some kw →
      isRefundStatus o.logs o.order_status = true) ∧
    (isRefundStatus "退款中" 0 = true ∧
      extractRefundStatus (some ⟨1, 0, "退款中", none, none, 0, 0, none⟩) =
        none) ∧
    (isRefundStatus "退单" 0 = true ∧
      extractRefundStatus (some ⟨1, 0, "退单", none, none, 0, 0, none⟩) =
        none) ∧
    (isRefundStatus "x" (-1) = true ∧
      extractRefundStatus (some ⟨1, 0, "x", none, none, -1, 0, none⟩) =
        none) := by
  refine ⟨?_, ⟨by decide, by decide⟩, ⟨by decide, by decide⟩,
    ⟨by decide, by decide⟩⟩
  intro o kw hle host hex
  simp only [extractRefundStatus, hle, host] at hex
  have hf : firstKw keywords3 o.logs.data = some kw := by
    cases hfk : firstKw keywords3 o.logs.data with
    | none =>
      rw [hfk] at hex
      exact Option.noConfusion hex
    | some kw2 =>
      rw [hfk] at hex
      exact hex
  unfold firstKw at hf
  have hmem3 : kw ∈ keywords3 := List.mem_of_find?_eq_some hf
  have hsub0 := List.find?_some hf
  have hsub : hasSubL kw.data o.logs.data = true := hsub0
  have hfix : ∀ k ∈ keywords3, ∀ c ∈ k.data, asciiLower c = c := by decide
  have hmem5 : ∀ k ∈ keywords3, k ∈ keywords5 := by decide
  unfold isRefundStatus
  rw [Bool.or_eq_true]
  left
  exact List.any_eq_true.mpr
    ⟨kw, hmem5 kw hmem3,
      hasSubL_map_lower kw.data (hfix kw hmem3) o.logs.data hsub⟩

/-- C10 amended, witness: the forward implication at an order whose
plain logs read `已退款` (extractor returns it, pre-tracking check
accepts it), next to the three converse-failure instances. -/
theorem c10_refund_checks_amended_witness :
    isRefundStatus "用户已退款完成" 0 = true ∧
    isRefundStatus "退款中" 0 = true ∧
    extractRefundStatus (some ⟨1, 0, "退款中", none, none, 0, 0, none⟩) =
      none := by
  refine ⟨?_, (c10_refund_checks_amended).2.1⟩
  exact (c10_refund_checks_amended).1 ⟨1, 0, "用户已退款完成", none, none, 0, 0, none⟩
    "已退款" rfl rfl (by decide)
